import Mathlib

/-!
Shallow embedding of the jobhuntllm form-automation core, translated from the
TypeScript sources:

* `src/chrome-extension/src/background/agent/optimizations/response-cache.ts`
  (class `ResponseCache`),
* `src/pages/options/src/components/WorkflowSettings.tsx`
  (classes `WorkflowRecorder` and `WorkflowExecutor`),
* `src/unnamed/part_001` (class `WorkflowSaver`),
* `src/unnamed/part_007` (class `RateLimiter`).

Modelling conventions: JS numbers holding millisecond timestamps are `Int`;
JS numbers holding rates, confidences and scores are `ℚ` (exact rationals in
place of IEEE floats); a JS `Map` is a key-ordered association list with
insert-or-replace semantics; `chrome.storage` collections are explicit list
arguments and results; asynchronous page calls are modelled by their inputs
(a page snapshot) and outputs (a list of dispatched page effects).  Fallible
operations return `Option`.
-/

/-! ### JavaScript string primitives -/

/-- Char-list test: the first list is a prefix of the second. -/
def listStarts : List Char → List Char → Bool
  | [], _ => true
  | _ :: _, [] => false
  | a :: as, b :: bs => a == b && listStarts as bs

/-- Char-list test: the first list occurs contiguously inside the second. -/
def listHasSub (needle : List Char) : List Char → Bool
  | [] => listStarts needle []
  | c :: rest => listStarts needle (c :: rest) || listHasSub needle rest

/-- JS `s.includes(sub)`: substring containment. -/
def jsIncludes (s sub : String) : Bool := listHasSub sub.toList s.toList

/-- ASCII lower-casing of one character, as JS `toLowerCase` acts on the
ASCII questions and identifiers this code handles. -/
def asciiLower (c : Char) : Char :=
  if 'A' ≤ c && c ≤ 'Z' then Char.ofNat (c.toNat + 32) else c

/-- JS `s.toLowerCase()` restricted to ASCII. -/
def jsToLower (s : String) : String := String.mk (s.toList.map asciiLower)

/-- JS regex class `\w`: letters, digits and underscore. -/
def isWordChar (c : Char) : Bool := c.isAlphanum || c == '_'

/-- JS regex class `\s` for the whitespace occurring in form questions. -/
def isWsChar (c : Char) : Bool := c == ' ' || c == '\t' || c == '\n' || c == '\r'

/-- JS `replace(/\s+/g, ' ')`: each maximal whitespace run becomes one space.
The boolean argument records whether the previous character was whitespace. -/
def collapseWsAux : Bool → List Char → List Char
  | _, [] => []
  | prevWs, c :: rest =>
    if isWsChar c then
      if prevWs then collapseWsAux true rest else ' ' :: collapseWsAux true rest
    else c :: collapseWsAux false rest

/-- JS `trim()`: strip leading and trailing whitespace. -/
def listTrim (l : List Char) : List Char :=
  ((l.dropWhile isWsChar).reverse.dropWhile isWsChar).reverse

/-- JS `s.substring(0, n)`. -/
def jsStrTake (s : String) (n : Nat) : String := String.mk (s.toList.take n)

/-- JS `a || b` where `a` is a string: `b` when `a` is the empty string. -/
def jsStrOr (a b : String) : String := if a == "" then b else a

/-- JS `a || d` where `a` may be `undefined` and `d` is a string. -/
def jsOptOr (a : Option String) (d : String) : String :=
  match a with
  | some s => if s == "" then d else s
  | none => d

/-- JS `a || b` where both operands may be `undefined`. -/
def jsOptOrOpt (a b : Option String) : Option String :=
  match a with
  | some s => if s == "" then b else some s
  | none => b

/-- JS template interpolation of a possibly-`undefined` string value. -/
def jsInterp (a : Option String) : String :=
  match a with
  | some s => s
  | none => "undefined"

/-- Stable insertion of one element: placed before the first resident `y`
with `le x y`, hence before every tie, matching JS stable sort order for an
element originating earlier in the input. -/
def insertSorted (le : α → α → Bool) (x : α) : List α → List α
  | [] => [x]
  | y :: ys => if le x y then x :: y :: ys else y :: insertSorted le x ys

/-- Stable sort modelling JS `Array.prototype.sort` with a comparator:
`le a b` holds when the comparator allows `a` at or before `b`. -/
def stableSort (le : α → α → Bool) : List α → List α
  | [] => []
  | x :: xs => insertSorted le x (stableSort le xs)

/-! ### ResponseCache (response-cache.ts) -/

namespace ResponseCache

/-- `MAX_CACHE_SIZE = 1000`. -/
def maxCacheSize : Nat := 1000

/-- `CACHE_EXPIRY = 30 * 24 * 60 * 60 * 1000` ms (30 days). -/
def cacheExpiry : Int := 2592000000

/-- Context object passed with a question; `sanitizeContext` keeps only
these four fields, each possibly absent. -/
structure CacheContext where
  companyName : Option String
  jobTitle : Option String
  industry : Option String
  platform : Option String
deriving DecidableEq

/-- Interface `CachedResponse` of response-cache.ts. -/
structure CachedResponse where
  hash : String
  questionText : String
  response : String
  confidence : ℚ
  timestamp : Int
  lastUsed : Int
  useCount : Nat
  context : Option CacheContext

/-- The in-memory `Map<string, CachedResponse>`, as an association list in
JS Map iteration order (insertion order, updates in place). -/
abbrev Cache := List (String × CachedResponse)

/-- JS `Map.get`. -/
def mapGet (cache : Cache) (k : String) : Option CachedResponse :=
  (cache.find? (fun p => p.1 == k)).map (fun p => p.2)

/-- JS `Map.set`: replaces in place when the key exists, appends otherwise. -/
def mapSet (cache : Cache) (k : String) (v : CachedResponse) : Cache :=
  match cache with
  | [] => [(k, v)]
  | (k1, v1) :: rest => if k1 == k then (k, v) :: rest else (k1, v1) :: mapSet rest k v

/-- JS `Map.delete`. -/
def mapDelete (cache : Cache) (k : String) : Cache :=
  match cache with
  | [] => []
  | (k1, v1) :: rest => if k1 == k then rest else (k1, v1) :: mapDelete rest k

/-- Normalisation step of `generateQuestionHash`: lower-case, remove
punctuation (`[^\w\s]`), collapse whitespace, trim. -/
def normalizeQuestion (questionText : String) : String :=
  String.mk (listTrim (collapseWsAux false
    (((jsToLower questionText).toList).filter (fun c => isWordChar c || isWsChar c))))

/-- `extractKeyConcepts`: keyword rules producing concept tags, `general`
when none fires.  The appends follow the push order of the source. -/
def extractKeyConcepts (text : String) : List String :=
  let c1 : List String :=
    if jsIncludes text "experience" || jsIncludes text "years" then
      if jsIncludes text "java" || jsIncludes text "python" || jsIncludes text "javascript" then
        ["experience", "programming_experience"]
      else ["experience"]
    else []
  let c2 := c1 ++ (if jsIncludes text "authorized" || jsIncludes text "legal" || jsIncludes text "work" then ["work_authorization"] else [])
  let c3 := c2 ++ (if jsIncludes text "sponsor" || jsIncludes text "visa" then ["visa_sponsorship"] else [])
  let c4 := c3 ++ (if jsIncludes text "degree" || jsIncludes text "bachelor" || jsIncludes text "education" then ["education"] else [])
  let c5 := c4 ++ (if jsIncludes text "salary" || jsIncludes text "compensation" || jsIncludes text "pay" then ["compensation"] else [])
  let c6 := c5 ++ (if jsIncludes text "start" || jsIncludes text "available" || jsIncludes text "notice" then ["availability"] else [])
  let c7 := c6 ++ (if jsIncludes text "remote" || jsIncludes text "onsite" || jsIncludes text "relocate" then ["location_preference"] else [])
  let c8 := c7 ++ (if jsIncludes text "why" && (jsIncludes text "interested" || jsIncludes text "apply") then ["why_interested"] else [])
  let c9 := c8 ++ (if jsIncludes text "why" && (jsIncludes text "qualified" || jsIncludes text "fit") then ["why_qualified"] else [])
  if c9.length > 0 then c9 else ["general"]

/-- Standard base64 alphabet used by `btoa`. -/
def base64Chars : List Char :=
  "ABCDEFGHIJKLMNOPQRSTUVWXYZabcdefghijklmnopqrstuvwxyz0123456789+/".toList

/-- Indexing into the base64 alphabet. -/
def b64Get (n : Nat) : Char := base64Chars.getD n 'A'

/-- Base64 encoding of a byte list, three bytes per group, `=`-padded. -/
def btoaBytes : List Nat → List Char
  | [] => []
  | [a] => [b64Get (a / 4), b64Get (a % 4 * 16), '=', '=']
  | [a, b] => [b64Get (a / 4), b64Get (a % 4 * 16 + b / 16), b64Get (b % 16 * 4), '=']
  | a :: b :: c :: rest =>
    b64Get (a / 4) :: b64Get (a % 4 * 16 + b / 16) ::
      b64Get (b % 16 * 4 + c / 64) :: b64Get (c % 64) :: btoaBytes rest

/-- JS `btoa` on the Latin-1 strings produced by the concept tags. -/
def btoa (s : String) : String := String.mk (btoaBytes (s.toList.map Char.toNat))

/-- `generateQuestionHash`: normalise, extract concepts, sort and join with
underscore, base64-encode, keep the first 16 characters.  JS default array
sort compares strings lexicographically, which `≤` on `String` models. -/
def generateQuestionHash (questionText : String) : String :=
  let normalized := normalizeQuestion questionText
  let concepts := extractKeyConcepts normalized
  let conceptHash := String.intercalate "_" (stableSort (fun a b => a ≤ b) concepts)
  jsStrTake (btoa conceptHash) 16

/-- `personalizeResponse`: substitute context placeholders; with no context
the response is returned unchanged. -/
def personalizeResponse (response : String) (context : Option CacheContext) : String :=
  match context with
  | none => response
  | some c =>
    ((response.replace "[Company Name]" (jsOptOr c.companyName "[Company Name]")).replace
        "[Position]" (jsOptOr c.jobTitle "[Position]")).replace
      "[Industry]" (jsOptOr c.industry "[Industry]")

/-- `sanitizeContext`: keep only the four known fields when truthy. -/
def sanitizeContext (c : CacheContext) : CacheContext :=
  { companyName := jsOptOrOpt c.companyName none
    jobTitle := jsOptOrOpt c.jobTitle none
    industry := jsOptOrOpt c.industry none
    platform := jsOptOrOpt c.platform none }

/-- `getCachedResponse`: miss gives `null`; an entry older than 30 days is
deleted and gives `null`; otherwise `lastUsed`/`useCount` are bumped and the
personalised stored response is returned.  Returns the response together
with the updated cache map. -/
def getCachedResponse (now : Int) (cache : Cache) (questionText : String)
    (context : Option CacheContext) : Option String × Cache :=
  let hash := generateQuestionHash questionText
  match mapGet cache hash with
  | none => (none, cache)
  | some cached =>
    if now - cached.timestamp > cacheExpiry then
      (none, mapDelete cache hash)
    else
      let updated := { cached with lastUsed := now, useCount := cached.useCount + 1 }
      (some (personalizeResponse cached.response context), mapSet cache hash updated)

/-- Cleanup score of `cleanupCache`:
`aScore = a.useCount + (now - a.lastUsed) / 1000000`. -/
def entryScore (now : Int) (e : CachedResponse) : ℚ :=
  (e.useCount : ℚ) + ((now - e.lastUsed : Int) : ℚ) / 1000000

/-- Comparator `(a, b) => bScore - aScore` of `cleanupCache`: `a` may sit at
or before `b` exactly when its score is at least that of `b` (descending). -/
def entryLe (now : Int) (a b : String × CachedResponse) : Bool :=
  decide (entryScore now b.2 ≤ entryScore now a.2)

/-- Rebuild pass of `cleanupCache`: `cache.clear()` then `set` per entry. -/
def rebuildCache (entries : List (String × CachedResponse)) : Cache :=
  entries.foldl (fun acc e => mapSet acc e.1 e.2) []

/-- `cleanupCache`: drop TTL-expired entries; if still above
`MAX_CACHE_SIZE`, sort descending by `entryScore` (stable) and keep the
first 1000 (`splice`); rebuild the map from the survivors. -/
def cleanupCache (now : Int) (cache : Cache) : Cache :=
  let entries := cache
  let validEntries := entries.filter (fun e => decide (now - e.2.timestamp < cacheExpiry))
  let kept :=
    if validEntries.length > maxCacheSize then
      (stableSort (entryLe now) validEntries).take maxCacheSize
    else validEntries
  rebuildCache kept

/-- `cacheResponse`: build the entry (truncated question, sanitised
context), `set` it, and run `cleanupCache` when the map has grown beyond
`MAX_CACHE_SIZE`. -/
def cacheResponse (now : Int) (cache : Cache) (questionText response : String)
    (confidence : ℚ) (context : Option CacheContext) : Cache :=
  let hash := generateQuestionHash questionText
  let cachedResponse : CachedResponse :=
    { hash := hash
      questionText := jsStrTake questionText 200
      response := response
      confidence := confidence
      timestamp := now
      lastUsed := now
      useCount := 1
      context := context.map sanitizeContext }
  let cache1 := mapSet cache hash cachedResponse
  if cache1.length > maxCacheSize then cleanupCache now cache1 else cache1

/-- One pending `cacheResponse` call, for stating facts about sequences of
single-entry inserts. -/
structure CacheInsert where
  now : Int
  question : String
  response : String
  confidence : ℚ
  context : Option CacheContext

/-- Sequential single-entry inserts through `cacheResponse`. -/
def insertSeq (inserts : List CacheInsert) (cache : Cache) : Cache :=
  inserts.foldl (fun c i => cacheResponse i.now c i.question i.response i.confidence i.context) cache

/-- Modelled from the spec: the eviction score the specification describes
for capacity-pressure cleanup, `useCount - age/large-constant` (the source
`cleanupCache` instead adds the staleness term).  Used only to compare the
specified eviction order with the implemented one. -/
def specEvictionScore (now : Int) (e : CachedResponse) : ℚ :=
  (e.useCount : ℚ) - ((now - e.lastUsed : Int) : ℚ) / 1000000

end ResponseCache

/-! ### RateLimiter (part_007) -/

namespace RateLimiter

/-- `timeWindow = 60000` ms. -/
def timeWindow : Int := 60000

/-- `maxCalls = 10`. -/
def maxCalls : Nat := 10

/-- `canProceed()`: prune timestamps outside the window ending at `now`;
deny when `maxCalls` remain, otherwise record `now` and grant.  Returns the
decision and the updated `calls` array. -/
def canProceed (now : Int) (calls : List Int) : Bool × List Int :=
  let pruned := calls.filter (fun time => decide (now - time < timeWindow))
  if maxCalls ≤ pruned.length then (false, pruned)
  else (true, pruned ++ [now])

/-- A sequence of `canProceed` calls at the given times, from a given
`calls` state; yields the granted timestamps in order and the final state. -/
def runCalls : List Int → List Int → List Int × List Int
  | [], calls => ([], calls)
  | t :: ts, calls =>
    let r := canProceed t calls
    let rest := runCalls ts r.2
    (if r.1 then t :: rest.1 else rest.1, rest.2)

/-- Timestamps granted along a call trace started from an empty limiter. -/
def granted (ts : List Int) : List Int := (runCalls ts []).1

/-- Membership of timestamp `t` in the rolling window `(x - 60000, x]`. -/
def inWindow (x t : Int) : Bool := decide (x - t < timeWindow) && decide (t ≤ x)

/-- Number of granted timestamps lying in the rolling window ending at `x`. -/
def windowCount (x : Int) (g : List Int) : Nat := (g.filter (inWindow x)).length

/-- The time of the last processed call, seeded with a lower bound. -/
def lastBound (b : Int) : List Int → Int
  | [] => b
  | t :: ts => lastBound t ts

end RateLimiter

/-! ### WorkflowSaver (part_001) -/

namespace WorkflowSaver

/-- Interface `WorkflowStep` of part_001. -/
structure SaverStep where
  action : String
  parameters : List (String × String)
  description : String
  isAIRequired : Bool
  fallbackAction : Option String

/-- Interface `WorkflowPattern` of part_001. -/
structure WorkflowPattern where
  id : String
  name : String
  platform : String
  applicationType : String
  steps : List SaverStep
  successRate : ℚ
  averageTime : Int
  createdAt : String
  lastUsed : String
  usageCount : Nat

/-- Whether the step loop of `WorkflowSaver.executeWorkflow` executes a step
(first three branches) or skips it (`continue`, AI required but disabled and
no fallback).  The dispatched collaborator actions are external. -/
def stepExecuted (useAI : Bool) (s : SaverStep) : Bool :=
  if s.isAIRequired && !useAI && s.fallbackAction.isSome then true
  else if !s.isAIRequired then true
  else if useAI then true
  else false

/-- `WorkflowSaver.updateWorkflowStats`: first matching workflow gets
`usageCount++`, `lastUsed` refreshed and
`successRate = (successRate + outcome) / 2`. -/
def updateWorkflowStats (workflows : List WorkflowPattern) (workflowId : String)
    (success : Bool) (nowStr : String) : List WorkflowPattern :=
  match workflows with
  | [] => []
  | w :: rest =>
    if w.id == workflowId then
      { w with
        usageCount := w.usageCount + 1
        lastUsed := nowStr
        successRate := (w.successRate + (if success then 1 else 0)) / 2 } :: rest
    else w :: updateWorkflowStats rest workflowId success nowStr

/-- `WorkflowSaver.executeWorkflow`: absent id throws (`none`); otherwise
count the executed steps, update the stats with
`success = (executedSteps == steps.length)`, and report both. -/
def executeWorkflow (workflows : List WorkflowPattern) (workflowId : String)
    (useAI : Bool) (nowStr : String) : Option (List WorkflowPattern × Nat) :=
  match workflows.find? (fun w => w.id == workflowId) with
  | none => none
  | some workflow =>
    let executedSteps := (workflow.steps.filter (stepExecuted useAI)).length
    some (updateWorkflowStats workflows workflowId
      (executedSteps == workflow.steps.length) nowStr, executedSteps)

end WorkflowSaver

/-! ### WorkflowRecorder and WorkflowExecutor (WorkflowSettings.tsx) -/

namespace Workflow

/-- The `type` field of a `RecordedAction`. -/
inductive ActionType
  | click
  | input
  | select
  | keypress
  | navigation
deriving DecidableEq

/-- Interface `RecordedElement`: the element fingerprint captured by the
in-page recorder script. -/
structure RecordedElement where
  tagName : String
  id : String
  className : String
  textContent : String
  name : String
  type : String
  placeholder : String
  xpath : String
deriving DecidableEq

/-- The untyped `data` payload attached to recorded actions and steps; each
field may be absent depending on the action kind. -/
structure ActionData where
  value : Option String
  inputType : Option String
  selectedValue : Option String
  selectedText : Option String
  key : Option String
  fromUrl : Option String
  toUrl : Option String
deriving DecidableEq

/-- Interface `RecordedAction`. -/
structure RecordedAction where
  timestamp : Int
  type : ActionType
  element : RecordedElement
  data : Option ActionData
  url : String
deriving DecidableEq

/-- The `action` tag of a `WorkflowStep`. -/
inductive StepAction
  | fill_field
  | click_element
  | select_option
  | key_press
  | navigate
deriving DecidableEq

/-- Interface `WorkflowStep`. -/
structure WorkflowStep where
  stepIndex : Nat
  action : StepAction
  element : RecordedElement
  data : Option ActionData
  timing : Int
  description : String
deriving DecidableEq

/-- Interface `SavedWorkflow`. -/
structure SavedWorkflow where
  id : String
  name : String
  platform : String
  steps : List WorkflowStep
  recordedAt : Int
  duration : Int
  actionCount : Nat
  optimizedActionCount : Nat
  successRate : ℚ
  usageCount : Nat

/-- The step built by `optimizeWorkflow` for one kept action, including the
deterministic description strings of the source. -/
def mkStep (startTime : Int) (stepIndex : Nat) (action : RecordedAction) : WorkflowStep :=
  match action.type with
  | ActionType.input =>
    { stepIndex := stepIndex
      action := StepAction.fill_field
      element := action.element
      data := action.data
      timing := action.timestamp - startTime
      description := "Fill " ++ jsStrOr action.element.name (jsStrOr action.element.type "field")
        ++ ": " ++ jsOptOr (action.data.bind (fun d => d.value)) "" }
  | ActionType.click =>
    { stepIndex := stepIndex
      action := StepAction.click_element
      element := action.element
      data := none
      timing := action.timestamp - startTime
      description := "Click " ++ action.element.tagName ++ ": "
        ++ jsStrOr action.element.textContent
            (jsStrOr action.element.id action.element.className) }
  | ActionType.select =>
    { stepIndex := stepIndex
      action := StepAction.select_option
      element := action.element
      data := action.data
      timing := action.timestamp - startTime
      description := "Select: " ++ jsInterp (jsOptOrOpt
        (action.data.bind (fun d => d.selectedText))
        (action.data.bind (fun d => d.selectedValue))) }
  | ActionType.keypress =>
    { stepIndex := stepIndex
      action := StepAction.key_press
      element := action.element
      data := action.data
      timing := action.timestamp - startTime
      description := "Press key: " ++ jsInterp (action.data.bind (fun d => d.key)) }
  | ActionType.navigation =>
    { stepIndex := stepIndex
      action := StepAction.navigate
      element := action.element
      data := action.data
      timing := action.timestamp - startTime
      description := "Navigate to: " ++ jsInterp (action.data.bind (fun d => d.toUrl)) }

/-- Debounce test of `optimizeWorkflow`: the current action is dropped when
the previous raw action has the same type and lies less than 100 ms back. -/
def shouldDrop (prev : Option RecordedAction) (action : RecordedAction) : Bool :=
  match prev with
  | none => false
  | some p => p.type == action.type && decide (action.timestamp - p.timestamp < 100)

/-- Loop of `optimizeWorkflow`: `prev` is the raw predecessor `actions[i-1]`
(dropped or not), `stepIndex` the next emission index. -/
def optimizeAux (startTime : Int) : Option RecordedAction → Nat → List RecordedAction → List WorkflowStep
  | _, _, [] => []
  | prev, stepIndex, action :: rest =>
    if shouldDrop prev action then optimizeAux startTime (some action) stepIndex rest
    else mkStep startTime stepIndex action :: optimizeAux startTime (some action) (stepIndex + 1) rest

/-- `WorkflowRecorder.optimizeWorkflow`. -/
def optimizeWorkflow (startTime : Int) (actions : List RecordedAction) : List WorkflowStep :=
  optimizeAux startTime none 0 actions

/-- Specification-side view of the debounce rule: keep `action[0]`, and of
each later `action[i]` (paired by `zip` with its raw predecessor
`action[i-1]`) keep it unless the predecessor has the same type within
100 ms. -/
def keptActions : List RecordedAction → List RecordedAction
  | [] => []
  | a :: rest =>
    a :: (rest.zip (a :: rest)).filterMap
      (fun p => if shouldDrop (some p.2) p.1 then none else some p.1)

/-- The suffix of `keptActions` after an explicit raw predecessor. -/
def keptFrom (p : RecordedAction) (l : List RecordedAction) : List RecordedAction :=
  (l.zip (p :: l)).filterMap (fun q => if shouldDrop (some q.2) q.1 then none else some q.1)

/-- Emission: consecutive `stepIndex` values from `k` over a kept list. -/
def mkSteps (startTime : Int) (k : Nat) (l : List RecordedAction) : List WorkflowStep :=
  (List.enumFrom k l).map (fun p => mkStep startTime p.1 p.2)

/-- `detectPlatform`: substring rules over the space-joined visited URLs. -/
def detectPlatform (actions : List RecordedAction) : String :=
  let urls := String.intercalate " " (actions.map (fun a => a.url))
  if jsIncludes urls "linkedin.com" then "linkedin"
  else if jsIncludes urls "indeed.com" then "indeed"
  else if jsIncludes urls "glassdoor.com" then "glassdoor"
  else if jsIncludes urls "workday" then "workday"
  else if jsIncludes urls "greenhouse" then "greenhouse"
  else "other"

/-- Mutable fields of a `WorkflowRecorder` instance. -/
structure RecorderState where
  isRecording : Bool
  currentWorkflow : List WorkflowStep
  startTime : Int
  recordingId : String
deriving DecidableEq

/-- A freshly constructed `WorkflowRecorder`: the field initialisers of the
class declaration. -/
def newWorkflowRecorder : RecorderState :=
  { isRecording := false, currentWorkflow := [], startTime := 0, recordingId := "" }

/-- Result of `stopRecording`. -/
structure StopResult where
  success : Bool
  workflow : Option SavedWorkflow

/-- `WorkflowRecorder.stopRecording`.  Inputs: the recorder state, the
actions the in-page recording script would hand back, the stored workflow
collection, the current time and the date string used in the default name.
Outputs: the result, the resulting stored collection, and whether the page
was read at all. -/
def stopRecording (st : RecorderState) (pageActions : List RecordedAction)
    (storage : List SavedWorkflow) (now : Int) (dateStr : String)
    (workflowName : Option String) : StopResult × List SavedWorkflow × Bool :=
  if !st.isRecording then ({ success := false, workflow := none }, storage, false)
  else
    let recordedActions := pageActions
    if recordedActions.length == 0 then ({ success := false, workflow := none }, storage, true)
    else
      let optimizedWorkflow := optimizeWorkflow st.startTime recordedActions
      let savedWorkflow : SavedWorkflow :=
        { id := st.recordingId
          name := jsOptOr workflowName ("Recorded Workflow " ++ dateStr)
          platform := detectPlatform recordedActions
          steps := optimizedWorkflow
          recordedAt := st.startTime
          duration := now - st.startTime
          actionCount := recordedActions.length
          optimizedActionCount := optimizedWorkflow.length
          successRate := 1
          usageCount := 0 }
      ({ success := true, workflow := some savedWorkflow },
        storage ++ [savedWorkflow], true)

/-- `createStopRecordingAction` of ultra-fast-actions.ts: constructs a fresh
`WorkflowRecorder` and calls `stopRecording` on it. -/
def stopRecordingAction (pageActions : List RecordedAction)
    (storage : List SavedWorkflow) (now : Int) (dateStr : String)
    (workflowName : Option String) : StopResult × List SavedWorkflow × Bool :=
  stopRecording newWorkflowRecorder pageActions storage now dateStr workflowName

/-- One element of the live `selectorMap` snapshot: the attributes and text
`findElement` inspects, plus the highlight index used for dropdowns.
Absent attributes are `none`. -/
structure LiveElement where
  attrId : Option String
  attrName : Option String
  textContent : Option String
  highlightIndex : Nat
deriving DecidableEq

/-- Text-content rule of `findElement`: the live text (when present)
contains the first 50 characters of the recorded text. -/
def elTextIncludes (el : LiveElement) (fp : RecordedElement) : Bool :=
  match el.textContent with
  | some t => jsIncludes t (jsStrTake fp.textContent 50)
  | none => false

/-- Disjunction of the three per-element match rules of `findElement`. -/
def elementMatches (fp : RecordedElement) (el : LiveElement) : Bool :=
  ((fp.id != "") && (el.attrId == some fp.id))
    || ((fp.name != "") && (el.attrName == some fp.name))
    || ((fp.textContent != "") && elTextIncludes el fp)

/-- `WorkflowExecutor.findElement`: walk the `selectorMap` in iteration
order; for each element try id equality, then name equality, then text
containment; return the first element any rule matches. -/
def findElement (fp : RecordedElement) : List LiveElement → Option LiveElement
  | [] => none
  | el :: rest =>
    if (fp.id != "") && (el.attrId == some fp.id) then some el
    else if (fp.name != "") && (el.attrName == some fp.name) then some el
    else if (fp.textContent != "") && elTextIncludes el fp then some el
    else findElement fp rest

/-- The flat auto-fill map returned by `ResumeManager.getAutoFillData`. -/
structure ResumeData where
  email : Option String
  phone : Option String
  first_name : Option String
  last_name : Option String
deriving DecidableEq

/-- `[name, id, placeholder].join(' ').toLowerCase()`. -/
def resumeIdentifiers (fp : RecordedElement) : String :=
  jsToLower (fp.name ++ " " ++ fp.id ++ " " ++ fp.placeholder)

/-- `WorkflowExecutor.isResumeField`. -/
def isResumeField (fp : RecordedElement) : Bool :=
  ["email", "phone", "first_name", "last_name", "name"].any
    (fun f => jsIncludes (resumeIdentifiers fp) f)

/-- `WorkflowExecutor.getResumeFieldValue` (null when nothing matches). -/
def getResumeFieldValue (fp : RecordedElement) (resumeData : ResumeData) : Option String :=
  let identifiers := resumeIdentifiers fp
  if jsIncludes identifiers "email" then resumeData.email
  else if jsIncludes identifiers "phone" then resumeData.phone
  else if jsIncludes identifiers "first" || jsIncludes identifiers "fname" then resumeData.first_name
  else if jsIncludes identifiers "last" || jsIncludes identifiers "lname" then resumeData.last_name
  else none

/-- A call the executor dispatches to the page-control collaborator. -/
inductive PageEffect
  | inputText (el : LiveElement) (value : String)
  | click (el : LiveElement)
  | selectOption (index : Nat) (value : String)
  | sendKeys (keys : String)
  | navigateTo (url : String)
deriving DecidableEq

/-- `WorkflowExecutor.fillField`: unresolved element returns silently with
no page call; otherwise the recorded value, optionally overridden by a
matching resume field, is typed into the element. -/
def fillField (snap : List LiveElement) (resumeData : Option ResumeData)
    (step : WorkflowStep) : List PageEffect :=
  match findElement step.element snap with
  | none => []
  | some el =>
    let value := jsOptOr (step.data.bind (fun d => d.value)) ""
    let value :=
      match resumeData with
      | some rd =>
        if isResumeField step.element then jsOptOr (getResumeFieldValue step.element rd) value
        else value
      | none => value
    [PageEffect.inputText el value]

/-- `WorkflowExecutor.clickElement`: unresolved element returns silently. -/
def clickElement (snap : List LiveElement) (step : WorkflowStep) : List PageEffect :=
  match findElement step.element snap with
  | none => []
  | some el => [PageEffect.click el]

/-- `WorkflowExecutor.selectOption`: unresolved element or falsy value
returns silently. -/
def selectOption (snap : List LiveElement) (step : WorkflowStep) : List PageEffect :=
  match findElement step.element snap with
  | none => []
  | some el =>
    match jsOptOrOpt (step.data.bind (fun d => d.selectedValue))
        (step.data.bind (fun d => d.selectedText)) with
    | some v => if v == "" then [] else [PageEffect.selectOption el.highlightIndex v]
    | none => []

/-- `WorkflowExecutor.pressKey`: sends the recorded key when present. -/
def pressKey (step : WorkflowStep) : List PageEffect :=
  match step.data.bind (fun d => d.key) with
  | some k => if k == "" then [] else [PageEffect.sendKeys k]
  | none => []

/-- `WorkflowExecutor.navigate`: navigates to the recorded target URL when
present. -/
def navigate (step : WorkflowStep) : List PageEffect :=
  match step.data.bind (fun d => d.toUrl) with
  | some u => if u == "" then [] else [PageEffect.navigateTo u]
  | none => []

/-- `WorkflowExecutor.executeStep`: dispatch on the action tag.  Page calls
are modelled as always completing, so the surrounding `try`/`catch` of the
step loop never fires in the model. -/
def executeStep (snap : List LiveElement) (resumeData : Option ResumeData)
    (step : WorkflowStep) : List PageEffect :=
  match step.action with
  | StepAction.fill_field => fillField snap resumeData step
  | StepAction.click_element => clickElement snap step
  | StepAction.select_option => selectOption snap step
  | StepAction.key_press => pressKey step
  | StepAction.navigate => navigate step

/-- Step loop of `executeWorkflow`: every step that completes without
throwing increments `executedSteps`; effects accumulate in order. -/
def runSteps (snap : List LiveElement) (resumeData : Option ResumeData) :
    List WorkflowStep → Nat × List PageEffect
  | [] => (0, [])
  | step :: rest =>
    let eff := executeStep snap resumeData step
    let r := runSteps snap resumeData rest
    (r.1 + 1, eff ++ r.2)

/-- Result record of `WorkflowExecutor.executeWorkflow`. -/
structure ExecResult where
  success : Bool
  message : String
  executedSteps : Nat
deriving DecidableEq

/-- `WorkflowExecutor.updateWorkflowStats`: the first workflow with the
given id gets `usageCount++` and the incremental-average update
`successRate = (successRate * (usageCount - 1) + outcome) / usageCount`
evaluated after the increment. -/
def updateWorkflowStats (workflows : List SavedWorkflow) (workflowId : String)
    (success : Bool) : List SavedWorkflow :=
  match workflows with
  | [] => []
  | w :: rest =>
    if w.id == workflowId then
      let newCount := w.usageCount + 1
      { w with
        usageCount := newCount
        successRate := (w.successRate * ((newCount : ℚ) - 1) + (if success then 1 else 0))
          / (newCount : ℚ) } :: rest
    else w :: updateWorkflowStats rest workflowId success

/-- `WorkflowExecutor.executeWorkflow`: load the workflow by id (absent id
fails fast), run the steps, update the usage stats with
`success = (executedSteps == steps.length)`, and report
`success = executedSteps > 0`.  Returns the result, the page effects
dispatched, and the stored collection after the stats update. -/
def executeWorkflow (workflows : List SavedWorkflow) (workflowId : String)
    (snap : List LiveElement) (resumeData : Option ResumeData) :
    ExecResult × List PageEffect × List SavedWorkflow :=
  match workflows.find? (fun w => w.id == workflowId) with
  | none => ({ success := false, message := "Workflow not found", executedSteps := 0 }, [], workflows)
  | some workflow =>
    let r := runSteps snap resumeData workflow.steps
    let executedSteps := r.1
    let newWorkflows := updateWorkflowStats workflows workflowId
      (executedSteps == workflow.steps.length)
    ({ success := decide (0 < executedSteps)
       message := "Executed " ++ toString executedSteps ++ "/"
         ++ toString workflow.steps.length ++ " steps"
       executedSteps := executedSteps }, r.2, newWorkflows)

end Workflow

/-! ### Concrete instances used by the scenario and counterexample theorems -/

/-- An action payload with every optional field absent. -/
def noData : Workflow.ActionData :=
  { value := none, inputType := none, selectedValue := none, selectedText := none,
    key := none, fromUrl := none, toUrl := none }

/-- Fingerprint of a text input identified by its id attribute. -/
def fpOf (s : String) : Workflow.RecordedElement :=
  { tagName := "input", id := s, className := "", textContent := "", name := "",
    type := "text", placeholder := "", xpath := "" }

/-- A `fill_field` step targeting `fpOf s` with a recorded literal value. -/
def stepOf (i : Nat) (s : String) : Workflow.WorkflowStep :=
  { stepIndex := i, action := Workflow.StepAction.fill_field, element := fpOf s,
    data := some { noData with value := some "v" }, timing := 0, description := "" }

/-- A live snapshot element carrying only an id attribute. -/
def liveOf (s : String) : Workflow.LiveElement :=
  { attrId := some s, attrName := none, textContent := none, highlightIndex := 0 }

/-- A saved 4-step workflow filling the fields f1, f2, f3, f4. -/
def wf4 : Workflow.SavedWorkflow :=
  { id := "wf4", name := "example", platform := "other",
    steps := [stepOf 0 "f1", stepOf 1 "f2", stepOf 2 "f3", stepOf 3 "f4"],
    recordedAt := 0, duration := 0, actionCount := 4, optimizedActionCount := 4,
    successRate := 1, usageCount := 0 }

/-- A live page exposing f1, f3 and f4 but not f2. -/
def snap4 : List Workflow.LiveElement := [liveOf "f1", liveOf "f3", liveOf "f4"]

/-- An `input` action on one field at the given timestamp. -/
def inputActionAt (t : Int) : Workflow.RecordedAction :=
  { timestamp := t, type := Workflow.ActionType.input, element := fpOf "field1",
    data := some { noData with value := some "hello" }, url := "https://jobs.example.com" }

/-- Two raw `input` actions on one field, 50 ms apart. -/
def debounceActions : List Workflow.RecordedAction := [inputActionAt 1000, inputActionAt 1050]

/-- Fingerprint with both an id and a name, for the resolver-priority
counterexample. -/
def fpX : Workflow.RecordedElement :=
  { tagName := "input", id := "target", className := "", textContent := "", name := "shared",
    type := "text", placeholder := "", xpath := "" }

/-- Earlier snapshot element: matches `fpX` only by name. -/
def elA : Workflow.LiveElement :=
  { attrId := some "other", attrName := some "shared", textContent := none, highlightIndex := 0 }

/-- Later snapshot element: matches `fpX` exactly by id. -/
def elB : Workflow.LiveElement :=
  { attrId := some "target", attrName := none, textContent := none, highlightIndex := 1 }

/-- Snapshot in which the name-only match precedes the id match. -/
def snap7 : List Workflow.LiveElement := [elA, elB]

/-- Rate-limiter call trace with a backwards clock jump: ten grants at
t=100, one at t=60100 after the ten are pruned, then eight more after the
clock jumps back to t=150..157. -/
def badTrace : List Int :=
  [100, 100, 100, 100, 100, 100, 100, 100, 100, 100, 60100, 150, 151, 152, 153, 154, 155, 156, 157]

/-- Ten calls at time 0. -/
def tenZeros : List Int := List.replicate 10 0

/-- A saver step that needs the oracle and has no fallback. -/
def aiStep : WorkflowSaver.SaverStep :=
  { action := "generate_cover_letter", parameters := [], description := "cover letter",
    isAIRequired := true, fallbackAction := none }

/-- A stored workflow pattern with two prior uses and a perfect rate. -/
def wfP : WorkflowSaver.WorkflowPattern :=
  { id := "p1", name := "pattern", platform := "linkedin", applicationType := "easy_apply",
    steps := [aiStep], successRate := 1, averageTime := 0, createdAt := "c0",
    lastUsed := "l0", usageCount := 2 }

/-- The stats record produced by the saver path for `wfP` on a failed run. -/
def wfPUpdated : WorkflowSaver.WorkflowPattern :=
  { wfP with usageCount := 2 + 1, lastUsed := "t2", successRate := ((1 : ℚ) + 0) / 2 }

/-- Reference time for the cache-eviction instances. -/
def cacheNow : Int := 3000000000

/-- A fresh, just-used entry: cleanup score 1, spec score 1. -/
def freshEntry : ResponseCache.CachedResponse :=
  { hash := "a", questionText := "q0", response := "r0", confidence := 1,
    timestamp := cacheNow, lastUsed := cacheNow, useCount := 1, context := none }

/-- A stale but unexpired entry (last used 2e9 ms ago): cleanup score 2001,
spec score -1999. -/
def staleEntry : ResponseCache.CachedResponse :=
  { hash := "k", questionText := "q1", response := "r1", confidence := 1,
    timestamp := cacheNow - 2000000000, lastUsed := cacheNow - 2000000000,
    useCount := 1, context := none }

/-- 1000 pairwise distinct two-character keys for the stale entries. -/
def staleKey (i : Nat) : String := String.mk ['k', Char.ofNat (256 + i)]

/-- 1000 stale entries under distinct keys. -/
def staleEntries : List (String × ResponseCache.CachedResponse) :=
  (List.range 1000).map (fun i => (staleKey i, staleEntry))

/-- A 1001-entry cache: the fresh entry followed by 1000 stale ones. -/
def bigCache : ResponseCache.Cache := ("a", freshEntry) :: staleEntries

/-- An idle recorder whose other fields are populated. -/
def recorderIdle : Workflow.RecorderState :=
  { isRecording := false, currentWorkflow := [], startTime := 7, recordingId := "r1" }

/-- The work-authorization question of the cache scenario. -/
def q1 : String := "Are you authorized to work in the US?"

/-- Its rephrasing sharing the `work_authorization` concept tag. -/
def q2 : String := "Do you have work authorization?"

/-! ### Helper lemmas -/

/-- An element below every resident (under the comparator) is appended. -/
theorem insertSorted_append_of_false (le : α → α → Bool) (x : α) (l : List α)
    (h : ∀ y ∈ l, le x y = false) : insertSorted le x l = l ++ [x] := by
  induction l with
  | nil => rfl
  | cons y ys ih =>
    have hy := h y (List.mem_cons_self y ys)
    simp [insertSorted, hy, ih (fun z hz => h z (List.mem_cons_of_mem y hz))]

/-- A list whose elements pairwise satisfy the comparator both ways is left
unchanged by the stable sort. -/
theorem stableSort_eq_self (le : α → α → Bool) (l : List α)
    (h : ∀ a ∈ l, ∀ b ∈ l, le a b = true) : stableSort le l = l := by
  induction l with
  | nil => rfl
  | cons x xs ih =>
    have hxs : stableSort le xs = xs :=
      ih (fun a ha b hb => h a (List.mem_cons_of_mem x ha) b (List.mem_cons_of_mem x hb))
    show insertSorted le x (stableSort le xs) = x :: xs
    rw [hxs]
    cases xs with
    | nil => rfl
    | cons y ys =>
      have hxy := h x (List.mem_cons_self x (y :: ys)) y
        (List.mem_cons_of_mem x (List.mem_cons_self y ys))
      simp [insertSorted, hxy]

/-- Stable insertion permutes to a cons. -/
theorem insertSorted_perm (le : α → α → Bool) (x : α) (l : List α) :
    (insertSorted le x l).Perm (x :: l) := by
  induction l with
  | nil => exact List.Perm.refl _
  | cons y ys ih =>
    by_cases hxy : le x y = true
    · simp [insertSorted, hxy]
    · have hxy2 : le x y = false := by simp [hxy]
      simp only [insertSorted, hxy2, Bool.false_eq_true, if_false]
      exact (ih.cons y).trans (List.Perm.swap x y ys)

/-- The stable sort is a permutation of its input. -/
theorem stableSort_perm (le : α → α → Bool) (l : List α) :
    (stableSort le l).Perm l := by
  induction l with
  | nil => exact List.Perm.refl _
  | cons x xs ih => exact (insertSorted_perm le x (stableSort le xs)).trans (ih.cons x)

/-- Stable insertion preserves sortedness for a total transitive comparator. -/
theorem insertSorted_pairwise (le : α → α → Bool)
    (htot : ∀ a b, le a b = true ∨ le b a = true)
    (htrans : ∀ a b c, le a b = true → le b c = true → le a c = true)
    (x : α) (l : List α) (h : List.Pairwise (fun a b => le a b = true) l) :
    List.Pairwise (fun a b => le a b = true) (insertSorted le x l) := by
  induction l with
  | nil => simp [insertSorted]
  | cons y ys ih =>
    rcases List.pairwise_cons.mp h with ⟨hy, hys⟩
    by_cases hxy : le x y = true
    · simp only [insertSorted, hxy, if_true]
      refine List.pairwise_cons.mpr ⟨?_, h⟩
      intro z hz
      rcases List.mem_cons.mp hz with hzy | hzys
      · exact hzy ▸ hxy
      · exact htrans x y z hxy (hy z hzys)
    · have hyx : le y x = true := (htot x y).resolve_left hxy
      have hxy2 : le x y = false := by simp [hxy]
      simp only [insertSorted, hxy2, Bool.false_eq_true, if_false]
      refine List.pairwise_cons.mpr ⟨?_, ih hys⟩
      intro z hz
      rcases List.mem_cons.mp ((insertSorted_perm le x ys).mem_iff.mp hz) with hzx | hzys
      · exact hzx ▸ hyx
      · exact hy z hzys

/-- The stable sort produces a pairwise-ordered list for a total transitive
comparator. -/
theorem stableSort_pairwise (le : α → α → Bool)
    (htot : ∀ a b, le a b = true ∨ le b a = true)
    (htrans : ∀ a b c, le a b = true → le b c = true → le a c = true)
    (l : List α) :
    List.Pairwise (fun a b => le a b = true) (stableSort le l) := by
  induction l with
  | nil => simp [stableSort]
  | cons x xs ih => exact insertSorted_pairwise le htot htrans x (stableSort le xs) ih

/-- `Map.set` grows the map by at most one entry. -/
theorem mapSet_length_le (cache : ResponseCache.Cache) (k : String)
    (v : ResponseCache.CachedResponse) :
    (ResponseCache.mapSet cache k v).length ≤ cache.length + 1 := by
  induction cache with
  | nil => simp [ResponseCache.mapSet]
  | cons p rest ih =>
    by_cases hk : p.1 == k
    · simp [ResponseCache.mapSet, hk]
    · simpa [ResponseCache.mapSet, hk] using ih

/-- Folding `Map.set` over a list grows the accumulator by at most the list
length. -/
theorem foldSet_length_le (l : List (String × ResponseCache.CachedResponse)) :
    ∀ acc : ResponseCache.Cache,
      (List.foldl (fun acc e => ResponseCache.mapSet acc e.1 e.2) acc l).length
        ≤ acc.length + l.length := by
  induction l with
  | nil => intro acc; simp
  | cons e rest ih =>
    intro acc
    calc (List.foldl (fun acc e => ResponseCache.mapSet acc e.1 e.2)
            (ResponseCache.mapSet acc e.1 e.2) rest).length
        ≤ (ResponseCache.mapSet acc e.1 e.2).length + rest.length := ih _
      _ ≤ acc.length + 1 + rest.length :=
          Nat.add_le_add_right (mapSet_length_le acc e.1 e.2) _
      _ = acc.length + (rest.length + 1) := by omega

/-- The rebuild pass of `cleanupCache` yields at most as many entries as it
is given. -/
theorem rebuildCache_length_le (l : List (String × ResponseCache.CachedResponse)) :
    (ResponseCache.rebuildCache l).length ≤ l.length := by
  simpa using foldSet_length_le l []

/-- Every entry of `Map.set` comes from the old map or is the new pair. -/
theorem mapSet_mem (cache : ResponseCache.Cache) (k : String)
    (v : ResponseCache.CachedResponse) :
    ∀ e ∈ ResponseCache.mapSet cache k v, e ∈ cache ∨ e = (k, v) := by
  induction cache with
  | nil => intro e he; simp [ResponseCache.mapSet] at he; simp [he]
  | cons p rest ih =>
    intro e he
    by_cases hk : p.1 == k
    · simp only [ResponseCache.mapSet, hk, if_true] at he
      rcases List.mem_cons.mp he with h1 | h2
      · exact Or.inr h1
      · exact Or.inl (List.mem_cons_of_mem p h2)
    · simp only [ResponseCache.mapSet, hk, Bool.false_eq_true, if_false] at he
      rcases List.mem_cons.mp he with h1 | h2
      · exact Or.inl (h1 ▸ List.mem_cons_self p rest)
      · rcases ih e h2 with h3 | h4
        · exact Or.inl (List.mem_cons_of_mem p h3)
        · exact Or.inr h4

/-- Every entry of the fold of `Map.set` comes from the accumulator or from
the inserted list. -/
theorem foldSet_mem (l : List (String × ResponseCache.CachedResponse)) :
    ∀ (acc : ResponseCache.Cache),
      ∀ e ∈ List.foldl (fun acc e => ResponseCache.mapSet acc e.1 e.2) acc l,
        e ∈ acc ∨ e ∈ l := by
  induction l with
  | nil => intro acc e he; exact Or.inl (by simpa using he)
  | cons p rest ih =>
    intro acc e he
    rcases ih (ResponseCache.mapSet acc p.1 p.2) e (by simpa using he) with h1 | h2
    · rcases mapSet_mem acc p.1 p.2 e h1 with h3 | h4
      · exact Or.inl h3
      · exact Or.inr (by simp [h4])
    · exact Or.inr (List.mem_cons_of_mem p h2)

/-- Every entry of the rebuilt cache comes from the given entry list. -/
theorem rebuildCache_mem (l : List (String × ResponseCache.CachedResponse)) :
    ∀ e ∈ ResponseCache.rebuildCache l, e ∈ l := by
  intro e he
  rcases foldSet_mem l [] e he with h1 | h2
  · simp at h1
  · exact h2

/-- Key membership after `Map.set`. -/
theorem mapSet_keys (cache : ResponseCache.Cache) (k : String)
    (v : ResponseCache.CachedResponse) (x : String) :
    x ∈ (ResponseCache.mapSet cache k v).map Prod.fst ↔
      x = k ∨ x ∈ cache.map Prod.fst := by
  induction cache with
  | nil => simp [ResponseCache.mapSet]
  | cons p rest ih =>
    obtain ⟨k1, v1⟩ := p
    by_cases hk : k1 == k
    · have hpk : k1 = k := by simpa [beq_iff_eq] using hk
      subst hpk
      simp only [ResponseCache.mapSet, beq_self_eq_true, if_true, List.map_cons, List.mem_cons]
      tauto
    · simp only [ResponseCache.mapSet, hk, Bool.false_eq_true, if_false, List.map_cons,
        List.mem_cons, ih]
      tauto

/-- Key membership after folding `Map.set`. -/
theorem foldSet_keys (l : List (String × ResponseCache.CachedResponse)) :
    ∀ (acc : ResponseCache.Cache) (x : String),
      x ∈ (List.foldl (fun acc e => ResponseCache.mapSet acc e.1 e.2) acc l).map Prod.fst ↔
        x ∈ acc.map Prod.fst ∨ x ∈ l.map Prod.fst := by
  induction l with
  | nil => intro acc x; simp
  | cons p rest ih =>
    intro acc x
    rw [List.foldl_cons, ih, mapSet_keys]
    simp
    tauto

/-- Key membership in the rebuilt cache. -/
theorem rebuildCache_keys (l : List (String × ResponseCache.CachedResponse)) (x : String) :
    x ∈ (ResponseCache.rebuildCache l).map Prod.fst ↔ x ∈ l.map Prod.fst := by
  have := foldSet_keys l [] x
  simpa [ResponseCache.rebuildCache] using this

/-- Filtering with a pointwise-weaker predicate keeps at least as much. -/
theorem filter_length_mono (p q : α → Bool) (l : List α)
    (h : ∀ a ∈ l, p a = true → q a = true) :
    (l.filter p).length ≤ (l.filter q).length := by
  induction l with
  | nil => simp
  | cons x xs ih =>
    have ih2 := ih (fun a ha hpa => h a (List.mem_cons_of_mem x ha) hpa)
    by_cases hpx : p x = true
    · have hqx := h x (List.mem_cons_self x xs) hpx
      simp [List.filter_cons, hpx, hqx]
      omega
    · have hpx2 : p x = false := by simp [hpx]
      by_cases hqx : q x = true
      · simp [List.filter_cons, hpx2, hqx]
        omega
      · have hqx2 : q x = false := by simp [hqx]
        simpa [List.filter_cons, hpx2, hqx2] using ih2

/-- The cleanup pass never leaves more than `maxCacheSize` entries. -/
theorem cleanupCache_length_le (now : Int) (cache : ResponseCache.Cache) :
    (ResponseCache.cleanupCache now cache).length ≤ ResponseCache.maxCacheSize := by
  unfold ResponseCache.cleanupCache
  by_cases h : (cache.filter
      (fun e => decide (now - e.2.timestamp < ResponseCache.cacheExpiry))).length
        > ResponseCache.maxCacheSize
  · simp only [h, if_true]
    calc (ResponseCache.rebuildCache _).length
        ≤ ((stableSort (ResponseCache.entryLe now) _).take ResponseCache.maxCacheSize).length :=
          rebuildCache_length_le _
      _ ≤ ResponseCache.maxCacheSize := by
          rw [List.length_take]
          exact min_le_left _ _
  · simp only [h, if_false]
    exact le_trans (rebuildCache_length_le _) (by omega)

/-- Unfolding of the spec-side kept list one action at a time. -/
theorem keptFrom_cons (p a : Workflow.RecordedAction) (l : List Workflow.RecordedAction) :
    Workflow.keptFrom p (a :: l)
      = if Workflow.shouldDrop (some p) a then Workflow.keptFrom a l
        else a :: Workflow.keptFrom a l := by
  by_cases h : Workflow.shouldDrop (some p) a
  · simp [Workflow.keptFrom, List.zip_cons_cons, List.filterMap_cons, h]
  · simp [Workflow.keptFrom, List.zip_cons_cons, List.filterMap_cons, h]

/-- Emission of steps over a cons. -/
theorem mkSteps_cons (st : Int) (k : Nat) (a : Workflow.RecordedAction)
    (l : List Workflow.RecordedAction) :
    Workflow.mkSteps st k (a :: l) = Workflow.mkStep st k a :: Workflow.mkSteps st (k + 1) l := by
  simp [Workflow.mkSteps]

/-- The optimizer loop emits exactly the steps of the spec-side kept list,
indexed consecutively from the current emission index. -/
theorem optimizeAux_eq (st : Int) (l : List Workflow.RecordedAction) :
    ∀ (p : Workflow.RecordedAction) (k : Nat),
      Workflow.optimizeAux st (some p) k l = Workflow.mkSteps st k (Workflow.keptFrom p l) := by
  induction l with
  | nil => intro p k; simp [Workflow.optimizeAux, Workflow.keptFrom, Workflow.mkSteps]
  | cons a rest ih =>
    intro p k
    rw [keptFrom_cons]
    by_cases h : Workflow.shouldDrop (some p) a
    · simp only [Workflow.optimizeAux, h, if_true]
      exact ih a k
    · simp only [Workflow.optimizeAux, h, Bool.false_eq_true, if_false]
      rw [mkSteps_cons, ih a (k + 1)]

/-- No entry of the 1001-entry cache is TTL-expired. -/
theorem bigCache_valid :
    bigCache.filter
        (fun e => decide (cacheNow - e.2.timestamp < ResponseCache.cacheExpiry))
      = bigCache := by
  refine List.filter_eq_self.mpr ?_
  intro e he
  rcases List.mem_cons.mp he with h1 | h2
  · subst h1; decide
  · obtain ⟨i, _, hi⟩ := List.mem_map.mp h2
    subst hi
    show decide (cacheNow - staleEntry.timestamp < ResponseCache.cacheExpiry) = true
    decide

/-- The stale entries have 1000 entries. -/
theorem staleEntries_length : staleEntries.length = 1000 := by
  simp [staleEntries]

/-- All stale entries tie under the cleanup comparator. -/
theorem entryLe_stale_pair :
    ∀ a ∈ staleEntries, ∀ b ∈ staleEntries, ResponseCache.entryLe cacheNow a b = true := by
  intro a ha b hb
  obtain ⟨i, _, hi⟩ := List.mem_map.mp ha
  obtain ⟨j, _, hj⟩ := List.mem_map.mp hb
  subst hi; subst hj
  simp [ResponseCache.entryLe]

/-- The fresh entry scores strictly below every stale entry under the
cleanup comparator (staleness is added, not subtracted). -/
theorem entryLe_fresh_stale_false :
    ∀ y ∈ staleEntries, ResponseCache.entryLe cacheNow ("a", freshEntry) y = false := by
  intro y hy
  obtain ⟨i, _, hi⟩ := List.mem_map.mp hy
  subst hi
  refine decide_eq_false ?_
  simp only [ResponseCache.entryScore, freshEntry, staleEntry, cacheNow]
  norm_num

/-- Cleanup of the 1001-entry cache keeps exactly the 1000 stale entries. -/
theorem cleanup_bigCache :
    ResponseCache.cleanupCache cacheNow bigCache = ResponseCache.rebuildCache staleEntries := by
  simp only [ResponseCache.cleanupCache]
  rw [bigCache_valid]
  have hlen : bigCache.length > ResponseCache.maxCacheSize := by
    simp [bigCache, staleEntries, ResponseCache.maxCacheSize]
  rw [if_pos hlen]
  have hsort : stableSort (ResponseCache.entryLe cacheNow) bigCache
      = staleEntries ++ [("a", freshEntry)] := by
    have hstep : stableSort (ResponseCache.entryLe cacheNow) bigCache
        = insertSorted (ResponseCache.entryLe cacheNow) ("a", freshEntry)
            (stableSort (ResponseCache.entryLe cacheNow) staleEntries) := rfl
    rw [hstep, stableSort_eq_self _ _ entryLe_stale_pair]
    exact insertSorted_append_of_false _ _ _ entryLe_fresh_stale_false
  rw [hsort]
  have htake : (staleEntries ++ [("a", freshEntry)]).take ResponseCache.maxCacheSize
      = staleEntries := by
    have h1000 : staleEntries.length = ResponseCache.maxCacheSize := staleEntries_length
    rw [← h1000, List.take_left]
  rw [htake]

/-- The time of the last call is one of the seed or the call times. -/
theorem lastBound_mem (b : Int) (l : List Int) : RateLimiter.lastBound b l ∈ b :: l := by
  induction l generalizing b with
  | nil => simp [RateLimiter.lastBound]
  | cons t ts ih =>
    show RateLimiter.lastBound t ts ∈ b :: t :: ts
    exact List.mem_cons_of_mem b (ih t)

/-- Invariant of the rate-limiter trace: running calls at non-decreasing
times from a state that holds exactly the in-window granted timestamps
keeps every rolling 60-second window at or below `maxCalls` grants, and
re-establishes the state characterisation at the last call time. -/
theorem runCalls_invariant (ts : List Int) :
    ∀ (g s : List Int) (bound : Int),
      List.Sorted (fun a b => a ≤ b) ts →
      (∀ t ∈ ts, bound ≤ t) →
      s = g.filter (fun u => decide (bound - u < RateLimiter.timeWindow)) →
      (∀ u ∈ g, u ≤ bound) →
      (∀ x, RateLimiter.windowCount x g ≤ RateLimiter.maxCalls) →
      (∀ x, RateLimiter.windowCount x (g ++ (RateLimiter.runCalls ts s).1)
          ≤ RateLimiter.maxCalls)
        ∧ (RateLimiter.runCalls ts s).2
            = (g ++ (RateLimiter.runCalls ts s).1).filter
                (fun u => decide (RateLimiter.lastBound bound ts - u < RateLimiter.timeWindow))
        ∧ (∀ u ∈ g ++ (RateLimiter.runCalls ts s).1, u ≤ RateLimiter.lastBound bound ts) := by
  induction ts with
  | nil =>
    intro g s bound _ _ hs hub hcnt
    refine ⟨?_, ?_, ?_⟩
    · intro x
      simpa [RateLimiter.runCalls] using hcnt x
    · simp only [RateLimiter.runCalls, RateLimiter.lastBound, List.append_nil]
      exact hs
    · intro u hu
      simp only [RateLimiter.runCalls, List.append_nil] at hu
      simpa [RateLimiter.lastBound] using hub u hu
  | cons t ts2 ih =>
    intro g s bound hsort hlbd hs hub hcnt
    have hbt : bound ≤ t := hlbd t (List.mem_cons_self t ts2)
    have hsort2 : List.Sorted (fun a b => a ≤ b) ts2 := (List.sorted_cons.mp hsort).2
    have hlbd2 : ∀ u ∈ ts2, t ≤ u := (List.sorted_cons.mp hsort).1
    have hpruned : s.filter (fun u => decide (t - u < RateLimiter.timeWindow))
        = g.filter (fun u => decide (t - u < RateLimiter.timeWindow)) := by
      rw [hs, List.filter_filter]
      refine List.filter_congr ?_
      intro u hu
      have hub2 := hub u hu
      by_cases h1 : t - u < RateLimiter.timeWindow
      · have h2 : bound - u < RateLimiter.timeWindow := by omega
        simp [h1, h2]
      · simp [h1]
    have hwceq : RateLimiter.windowCount t g
        = (g.filter (fun u => decide (t - u < RateLimiter.timeWindow))).length := by
      unfold RateLimiter.windowCount
      congr 1
      refine List.filter_congr ?_
      intro u hu
      have h3 : u ≤ t := le_trans (hub u hu) hbt
      simp [RateLimiter.inWindow, h3]
    by_cases hfull : RateLimiter.maxCalls
        ≤ (s.filter (fun u => decide (t - u < RateLimiter.timeWindow))).length
    · have hcan : RateLimiter.canProceed t s
          = (false, s.filter (fun u => decide (t - u < RateLimiter.timeWindow))) := by
        simp [RateLimiter.canProceed, hfull]
      have hrw : RateLimiter.runCalls (t :: ts2) s
          = RateLimiter.runCalls ts2
              (s.filter (fun u => decide (t - u < RateLimiter.timeWindow))) := by
        simp [RateLimiter.runCalls, hcan]
      obtain ⟨ih1, ih2, ih3⟩ := ih g
        (s.filter (fun u => decide (t - u < RateLimiter.timeWindow))) t
        hsort2 hlbd2 hpruned (fun u hu => le_trans (hub u hu) hbt) hcnt
      rw [hrw]
      exact ⟨ih1, ih2, ih3⟩
    · have hlt : (s.filter (fun u => decide (t - u < RateLimiter.timeWindow))).length
          < RateLimiter.maxCalls := Nat.lt_of_not_le hfull
      have hcan : RateLimiter.canProceed t s
          = (true, s.filter (fun u => decide (t - u < RateLimiter.timeWindow)) ++ [t]) := by
        simp [RateLimiter.canProceed, hfull]
      have hsnew : s.filter (fun u => decide (t - u < RateLimiter.timeWindow)) ++ [t]
          = (g ++ [t]).filter (fun u => decide (t - u < RateLimiter.timeWindow)) := by
        rw [hpruned, List.filter_append]
        simp [RateLimiter.timeWindow]
      have hubnew : ∀ u ∈ g ++ [t], u ≤ t := by
        intro u hu
        rcases List.mem_append.mp hu with h4 | h4
        · exact le_trans (hub u h4) hbt
        · simp at h4
          omega
      have hcntnew : ∀ x, RateLimiter.windowCount x (g ++ [t]) ≤ RateLimiter.maxCalls := by
        intro x
        unfold RateLimiter.windowCount
        rw [List.filter_append, List.length_append]
        by_cases hxt : RateLimiter.inWindow x t = true
        · have h5 : x - t < RateLimiter.timeWindow ∧ t ≤ x := by
            simpa [RateLimiter.inWindow] using hxt
          have hsub : (g.filter (RateLimiter.inWindow x)).length
              ≤ (g.filter (fun u => decide (t - u < RateLimiter.timeWindow))).length := by
            refine filter_length_mono _ _ g ?_
            intro u hu hin
            have h4 : x - u < RateLimiter.timeWindow ∧ u ≤ x := by
              simpa [RateLimiter.inWindow] using hin
            simp
            omega
          have h6 : (g.filter (RateLimiter.inWindow x)).length < RateLimiter.maxCalls := by
            calc (g.filter (RateLimiter.inWindow x)).length
                ≤ (g.filter (fun u => decide (t - u < RateLimiter.timeWindow))).length := hsub
              _ = (s.filter (fun u => decide (t - u < RateLimiter.timeWindow))).length := by
                  rw [hpruned]
              _ < RateLimiter.maxCalls := hlt
          have h7 : (List.filter (RateLimiter.inWindow x) [t]).length = 1 := by
            simp [hxt]
          rw [h7]
          omega
        · have h8 : RateLimiter.inWindow x t = false := by
            simpa using hxt
          have h9 : (List.filter (RateLimiter.inWindow x) [t]).length = 0 := by
            simp [h8]
          rw [h9]
          have := hcnt x
          unfold RateLimiter.windowCount at this
          omega
      obtain ⟨ih1, ih2, ih3⟩ := ih (g ++ [t])
        (s.filter (fun u => decide (t - u < RateLimiter.timeWindow)) ++ [t]) t
        hsort2 hlbd2 hsnew hubnew hcntnew
      have hrw : RateLimiter.runCalls (t :: ts2) s
          = (t :: (RateLimiter.runCalls ts2
              (s.filter (fun u => decide (t - u < RateLimiter.timeWindow)) ++ [t])).1,
             (RateLimiter.runCalls ts2
              (s.filter (fun u => decide (t - u < RateLimiter.timeWindow)) ++ [t])).2) := by
        simp [RateLimiter.runCalls, hcan]
      rw [hrw]
      have hassoc : ∀ X : List Int, g ++ (t :: X) = (g ++ [t]) ++ X := by
        intro X
        simp
      refine ⟨?_, ?_, ?_⟩
      · intro x
        rw [hassoc]
        exact ih1 x
      · rw [hassoc]
        exact ih2
      · intro u hu
        rw [hassoc] at hu
        exact ih3 u hu

/-- Along any trace of calls at non-decreasing times, no rolling 60-second
window ever contains more than `maxCalls` granted timestamps. -/
theorem granted_window_le (ts : List Int)
    (hsort : List.Sorted (fun a b => a ≤ b) ts) :
    ∀ x, RateLimiter.windowCount x (RateLimiter.granted ts) ≤ RateLimiter.maxCalls := by
  cases ts with
  | nil =>
    intro x
    simp [RateLimiter.granted, RateLimiter.runCalls, RateLimiter.windowCount,
      RateLimiter.maxCalls]
  | cons t ts2 =>
    have hlbd : ∀ u ∈ t :: ts2, t ≤ u := by
      intro u hu
      rcases List.mem_cons.mp hu with h1 | h2
      · omega
      · exact (List.sorted_cons.mp hsort).1 u h2
    obtain ⟨h1, _, _⟩ := runCalls_invariant (t :: ts2) [] [] t hsort hlbd rfl
      (by intro u hu; simp at hu) (by intro x; simp [RateLimiter.windowCount])
    intro x
    simpa [RateLimiter.granted] using h1 x

/-- With the trace sorted, a call at time `t` is denied whenever `maxCalls`
previously granted timestamps still lie in the window ending at `t`. -/
theorem canProceed_denies_full_window (l1 : List Int) (t : Int) (l2 : List Int)
    (hsort : List.Sorted (fun a b => a ≤ b) (l1 ++ t :: l2))
    (hfull : RateLimiter.maxCalls ≤ RateLimiter.windowCount t (RateLimiter.granted l1)) :
    (RateLimiter.canProceed t (RateLimiter.runCalls l1 []).2).1 = false := by
  cases l1 with
  | nil =>
    simp [RateLimiter.granted, RateLimiter.runCalls, RateLimiter.windowCount,
      RateLimiter.maxCalls] at hfull
  | cons h1 rest =>
    have hparts := List.pairwise_append.mp
      (show List.Pairwise (fun a b => a ≤ b) ((h1 :: rest) ++ t :: l2) from hsort)
    have hsortl1 : List.Sorted (fun a b => a ≤ b) (h1 :: rest) := hparts.1
    have hle_t : ∀ u ∈ h1 :: rest, u ≤ t := fun u hu =>
      hparts.2.2 u hu t (List.mem_cons_self t l2)
    have hlbd : ∀ u ∈ h1 :: rest, h1 ≤ u := by
      intro u hu
      rcases List.mem_cons.mp hu with hh | hh
      · omega
      · exact (List.sorted_cons.mp hsortl1).1 u hh
    obtain ⟨_, hstate, hub⟩ := runCalls_invariant (h1 :: rest) [] [] h1 hsortl1 hlbd rfl
      (by intro u hu; simp at hu) (by intro x; simp [RateLimiter.windowCount])
    have hBt : RateLimiter.lastBound h1 (h1 :: rest) ≤ t := by
      have hmem := lastBound_mem h1 (h1 :: rest)
      rcases List.mem_cons.mp hmem with hh | hh
      · rw [hh]
        exact hle_t h1 (List.mem_cons_self h1 rest)
      · exact hle_t _ hh
    have hubt : ∀ u ∈ (RateLimiter.runCalls (h1 :: rest) []).1, u ≤ t := by
      intro u hu
      have := hub u (by simpa using hu)
      omega
    have hpruned : ((RateLimiter.runCalls (h1 :: rest) []).2).filter
        (fun u => decide (t - u < RateLimiter.timeWindow))
        = ((RateLimiter.runCalls (h1 :: rest) []).1).filter
            (fun u => decide (t - u < RateLimiter.timeWindow)) := by
      rw [hstate, List.filter_filter]
      simp only [List.nil_append]
      refine List.filter_congr ?_
      intro u hu
      have h4 := hub u (by simpa using hu)
      by_cases h5 : t - u < RateLimiter.timeWindow
      · have h6 : RateLimiter.lastBound h1 (h1 :: rest) - u < RateLimiter.timeWindow := by
          omega
        simp [h5, h6]
      · simp [h5]
    have hwc : RateLimiter.windowCount t (RateLimiter.granted (h1 :: rest))
        = (((RateLimiter.runCalls (h1 :: rest) []).1).filter
            (fun u => decide (t - u < RateLimiter.timeWindow))).length := by
      unfold RateLimiter.windowCount RateLimiter.granted
      congr 1
      refine List.filter_congr ?_
      intro u hu
      have h3 : u ≤ t := hubt u hu
      simp [RateLimiter.inWindow, h3]
    have hge : RateLimiter.maxCalls
        ≤ (((RateLimiter.runCalls (h1 :: rest) []).2).filter
            (fun u => decide (t - u < RateLimiter.timeWindow))).length := by
      rw [hpruned, ← hwc]
      exact hfull
    simp [RateLimiter.canProceed, hge]

/-- The resolver walk equals `find?` with the disjunction of the three
per-element rules: the first snapshot element matching any rule wins. -/
theorem findElement_eq_find (fp : Workflow.RecordedElement) (snap : List Workflow.LiveElement) :
    Workflow.findElement fp snap = snap.find? (Workflow.elementMatches fp) := by
  induction snap with
  | nil => rfl
  | cons el rest ih =>
    by_cases h1 : ((fp.id != "") && (el.attrId == some fp.id)) = true
    · have hm : Workflow.elementMatches fp el = true := by
        simp [Workflow.elementMatches, h1]
      rw [List.find?_cons_of_pos _ hm]
      simp [Workflow.findElement, h1]
    · by_cases h2 : ((fp.name != "") && (el.attrName == some fp.name)) = true
      · have hm : Workflow.elementMatches fp el = true := by
          simp [Workflow.elementMatches, h2]
        rw [List.find?_cons_of_pos _ hm]
        simp [Workflow.findElement, h1, h2]
      · by_cases h3 : ((fp.textContent != "") && Workflow.elTextIncludes el fp) = true
        · have hm : Workflow.elementMatches fp el = true := by
            simp [Workflow.elementMatches, h3]
          rw [List.find?_cons_of_pos _ hm]
          simp [Workflow.findElement, h1, h2, h3]
        · have hm : Workflow.elementMatches fp el = false := by
            simp only [Workflow.elementMatches]
            simp only [Bool.not_eq_true] at h1 h2 h3
            simp [h1, h2, h3]
          rw [List.find?_cons_of_neg _ (by simp [hm])]
          simp only [Workflow.findElement, h1, h2, h3, Bool.false_eq_true, if_false]
          exact ih

/-- A single `cacheResponse` always leaves at most `maxCacheSize` entries. -/
theorem cacheResponse_length_le (now : Int) (cache : ResponseCache.Cache)
    (q resp : String) (conf : ℚ) (ctx : Option ResponseCache.CacheContext) :
    (ResponseCache.cacheResponse now cache q resp conf ctx).length
      ≤ ResponseCache.maxCacheSize := by
  simp only [ResponseCache.cacheResponse]
  split
  next h => exact cleanupCache_length_le now _
  next h => omega

/-- C3: after any single-entry insert (`cacheResponse`) and its
insert-triggered cleanup pass, the question cache holds at most 1000
entries; hence any nonempty sequence of single-entry inserts, in particular
1001 inserts with pairwise distinct concept hashes, leaves at most 1000
entries. -/
theorem C3_insert_keeps_cache_within_capacity :
    (∀ (now : Int) (cache : ResponseCache.Cache) (q resp : String) (conf : ℚ)
        (ctx : Option ResponseCache.CacheContext),
      (ResponseCache.cacheResponse now cache q resp conf ctx).length
        ≤ ResponseCache.maxCacheSize)
    ∧ (∀ (inserts : List ResponseCache.CacheInsert) (i : ResponseCache.CacheInsert)
        (cache : ResponseCache.Cache),
      (ResponseCache.insertSeq (inserts ++ [i]) cache).length ≤ ResponseCache.maxCacheSize) := by
  refine ⟨cacheResponse_length_le, ?_⟩
  intro inserts i cache
  simp only [ResponseCache.insertSeq, List.foldl_append, List.foldl_cons, List.foldl_nil]
  exact cacheResponse_length_le _ _ _ _ _ _

/-- C5: the authorization question and its rephrasing share the concept tag
`work_authorization` and hence the same question hash; `get` before any
`put` returns null, and after `put` of the answer Yes for the first
question, `get` on the rephrasing also returns Yes. -/
theorem C5_rephrasing_shares_cache :
    ResponseCache.generateQuestionHash q1 = ResponseCache.generateQuestionHash q2
    ∧ ResponseCache.extractKeyConcepts (ResponseCache.normalizeQuestion q1)
        = ["work_authorization"]
    ∧ ResponseCache.extractKeyConcepts (ResponseCache.normalizeQuestion q2)
        = ["work_authorization"]
    ∧ (ResponseCache.getCachedResponse 1700000000000 [] q1 none).1 = none
    ∧ (ResponseCache.getCachedResponse 1700000000000
        (ResponseCache.cacheResponse 1700000000000 [] q1 "Yes" 1 none) q2 none).1
        = some "Yes" := by
  decide

/-- C6: the optimizer drops `action[i]` exactly when it has the same type
as the raw predecessor `action[i-1]` within 100 ms (the kept actions map
1:1 to steps indexed in emission order), and two `input` actions at
t=1000 and t=1050 on one field yield exactly one `fill_field` step. -/
theorem C6_debounce_drops_rapid_duplicates :
    (∀ (startTime : Int) (actions : List Workflow.RecordedAction),
      Workflow.optimizeWorkflow startTime actions
        = Workflow.mkSteps startTime 0 (Workflow.keptActions actions))
    ∧ (Workflow.optimizeWorkflow 0 debounceActions).map (fun s => s.action)
        = [Workflow.StepAction.fill_field] := by
  constructor
  · intro st actions
    cases actions with
    | nil => rfl
    | cons a rest =>
      show Workflow.optimizeAux st none 0 (a :: rest) = _
      have hnd : Workflow.shouldDrop none a = false := rfl
      simp only [Workflow.optimizeAux, hnd, Bool.false_eq_true, if_false]
      rw [optimizeAux_eq st rest a 1]
      rw [show Workflow.keptActions (a :: rest) = a :: Workflow.keptFrom a rest from rfl,
        mkSteps_cons]
  · decide

/-- C7 counterexample: `fpX` matches `elB` exactly by id, yet `findElement`
returns the earlier element `elA`, which matches only by name — rule
priority is not global across the snapshot. -/
theorem C7_counterexample_iteration_order_beats_rule_priority :
    (elB.attrId == some fpX.id) = true
    ∧ Workflow.elementMatches fpX elB = true
    ∧ elB ∈ snap7
    ∧ Workflow.findElement fpX snap7 = some elA
    ∧ ¬(elA = elB) := by
  decide

/-- C7 amended: the resolver returns the first snapshot element, in
iteration order, matched by any of the three rules (id, then name, then
text, tested per element); it yields none exactly when no element matches
any rule. -/
theorem C7_amended_first_matching_element_wins :
    (∀ (fp : Workflow.RecordedElement) (snap : List Workflow.LiveElement),
      Workflow.findElement fp snap = snap.find? (Workflow.elementMatches fp))
    ∧ (∀ (fp : Workflow.RecordedElement) (snap : List Workflow.LiveElement),
      Workflow.findElement fp snap = none
        ↔ ∀ el ∈ snap, Workflow.elementMatches fp el = false) := by
  refine ⟨findElement_eq_find, ?_⟩
  intro fp snap
  rw [findElement_eq_find, List.find?_eq_none]
  constructor
  · intro h el hel
    have := h el hel
    simpa using this
  · intro h el hel
    simp [h el hel]

/-- Instance of the amended C7 statement at the concrete snapshot. -/
theorem C7_amended_witness :
    Workflow.findElement fpX snap7 = snap7.find? (Workflow.elementMatches fpX) :=
  C7_amended_first_matching_element_wins.1 fpX snap7

/-- C1 counterexample: executing the 4-step workflow whose step 2 cannot be
resolved (steps 1, 3, 4 resolve and succeed) reports `executedSteps = 4`,
not 3 — the unresolved step returns silently from `fillField`, so the step
loop still counts it. -/
theorem C1_counterexample_unresolved_step_still_counted :
    Workflow.findElement (stepOf 1 "f2").element snap4 = none
    ∧ Workflow.findElement (stepOf 0 "f1").element snap4 = some (liveOf "f1")
    ∧ Workflow.findElement (stepOf 2 "f3").element snap4 = some (liveOf "f3")
    ∧ Workflow.findElement (stepOf 3 "f4").element snap4 = some (liveOf "f4")
    ∧ (Workflow.executeWorkflow [wf4] "wf4" snap4 none).1.executedSteps = 4
    ∧ ¬((Workflow.executeWorkflow [wf4] "wf4" snap4 none).1.executedSteps = 3) := by
  decide

/-- C1 amended: a step whose element resolves to none is skipped silently —
no page action is dispatched — but it still counts as executed, because
`executeStep` completes without throwing; `executedSteps` equals the total
step count whenever no page call throws, so the 4-step scenario yields
`executedSteps = 4` with only three dispatched fills. -/
theorem C1_amended_unresolved_step_skipped_but_counted :
    (∀ (snap : List Workflow.LiveElement) (resumeData : Option Workflow.ResumeData)
        (steps : List Workflow.WorkflowStep),
      (Workflow.runSteps snap resumeData steps).1 = steps.length)
    ∧ (∀ (snap : List Workflow.LiveElement) (resumeData : Option Workflow.ResumeData)
        (step : Workflow.WorkflowStep),
      step.action = Workflow.StepAction.fill_field →
      Workflow.findElement step.element snap = none →
      Workflow.executeStep snap resumeData step = [])
    ∧ (Workflow.executeWorkflow [wf4] "wf4" snap4 none).1.executedSteps = 4
    ∧ (Workflow.executeWorkflow [wf4] "wf4" snap4 none).2.1
        = [Workflow.PageEffect.inputText (liveOf "f1") "v",
           Workflow.PageEffect.inputText (liveOf "f3") "v",
           Workflow.PageEffect.inputText (liveOf "f4") "v"] := by
  refine ⟨?_, ?_, by decide, by decide⟩
  · intro snap rd steps
    induction steps with
    | nil => rfl
    | cons s rest ih => simp [Workflow.runSteps, ih]
  · intro snap rd step h1 h2
    simp [Workflow.executeStep, h1, Workflow.fillField, h2]

/-- Instance of the amended C1 statement: the unresolved second step of the
scenario dispatches nothing. -/
theorem C1_amended_witness :
    Workflow.executeStep snap4 none (stepOf 1 "f2") = [] :=
  C1_amended_unresolved_step_skipped_but_counted.2.1 snap4 none (stepOf 1 "f2") rfl (by decide)

/-- C9: an absent workflow id makes `executeWorkflow` fail fast: the
failure result carries `executedSteps = 0`, no page effect is dispatched,
and the stored collection (hence every usage statistic) is unchanged. -/
theorem C9_absent_workflow_fails_fast_no_side_effects
    (workflows : List Workflow.SavedWorkflow) (workflowId : String)
    (snap : List Workflow.LiveElement) (resumeData : Option Workflow.ResumeData)
    (h : ∀ w ∈ workflows, w.id ≠ workflowId) :
    Workflow.executeWorkflow workflows workflowId snap resumeData
      = ({ success := false, message := "Workflow not found", executedSteps := 0 },
         [], workflows) := by
  have hfind : workflows.find? (fun w => w.id == workflowId) = none :=
    List.find?_eq_none.mpr (fun w hw => by simp [h w hw])
  simp [Workflow.executeWorkflow, hfind]

/-- Instance of C9 at a concrete store missing the requested id. -/
theorem C9_witness :
    Workflow.executeWorkflow [wf4] "missing" [] none
      = ({ success := false, message := "Workflow not found", executedSteps := 0 },
         [], [wf4]) :=
  C9_absent_workflow_fails_fast_no_side_effects [wf4] "missing" [] none (by decide)

/-- C10: `stopRecording` on a recorder whose `isRecording` flag is false
returns `success = false` without reading the page and without touching the
stored workflows; the stop-recording action path always acts on a freshly
constructed recorder (whose flag is false), so it never persists anything. -/
theorem C10_idle_stop_recording_never_persists
    (st : Workflow.RecorderState) (pageActions : List Workflow.RecordedAction)
    (storage : List Workflow.SavedWorkflow) (now : Int) (dateStr : String)
    (workflowName : Option String) (h : st.isRecording = false) :
    Workflow.stopRecording st pageActions storage now dateStr workflowName
      = ({ success := false, workflow := none }, storage, false)
    ∧ Workflow.newWorkflowRecorder.isRecording = false
    ∧ Workflow.stopRecordingAction pageActions storage now dateStr workflowName
      = ({ success := false, workflow := none }, storage, false) := by
  refine ⟨?_, rfl, ?_⟩
  · simp [Workflow.stopRecording, h]
  · simp [Workflow.stopRecordingAction, Workflow.stopRecording, Workflow.newWorkflowRecorder]

/-- Instance of C10 on a concrete idle recorder and nonempty store. -/
theorem C10_witness :
    Workflow.stopRecording recorderIdle [] [wf4] 99 "d" none
      = ({ success := false, workflow := none }, [wf4], false) :=
  (C10_idle_stop_recording_never_persists recorderIdle [] [wf4] 99 "d" none rfl).1

/-- C8 counterexample to the claim over arbitrary call times: with a
backward clock jump (`badTrace`), 18 permits are granted inside the single
rolling 60-second window ending at t=157 — more than the 10 the claim
allows. -/
theorem C8_counterexample_backward_clock_overflows_window :
    RateLimiter.windowCount 157 (RateLimiter.granted badTrace) = 18
    ∧ RateLimiter.maxCalls < RateLimiter.windowCount 157 (RateLimiter.granted badTrace) := by
  decide

/-- C8 amended: a permit timestamp is recorded exactly when `canProceed`
returns true, after pruning entries older than the 60-second window; and
for call times that are non-decreasing (as wall-clock times are), no
rolling 60-second window ever holds more than 10 granted permits, and a
call is denied whenever 10 granted permits still lie inside its window. -/
theorem C8_amended_rolling_window_bound :
    (∀ (now : Int) (calls : List Int),
      ((RateLimiter.canProceed now calls).1 = true →
        (RateLimiter.canProceed now calls).2
          = calls.filter (fun time => decide (now - time < RateLimiter.timeWindow)) ++ [now])
      ∧ ((RateLimiter.canProceed now calls).1 = false →
        (RateLimiter.canProceed now calls).2
          = calls.filter (fun time => decide (now - time < RateLimiter.timeWindow))))
    ∧ (∀ ts : List Int, List.Sorted (fun a b => a ≤ b) ts →
        ∀ x, RateLimiter.windowCount x (RateLimiter.granted ts) ≤ RateLimiter.maxCalls)
    ∧ (∀ (l1 : List Int) (t : Int) (l2 : List Int),
        List.Sorted (fun a b => a ≤ b) (l1 ++ t :: l2) →
        RateLimiter.maxCalls ≤ RateLimiter.windowCount t (RateLimiter.granted l1) →
        (RateLimiter.canProceed t (RateLimiter.runCalls l1 []).2).1 = false) := by
  refine ⟨?_, granted_window_le, canProceed_denies_full_window⟩
  intro now calls
  by_cases hfull : RateLimiter.maxCalls
      ≤ (calls.filter (fun time => decide (now - time < RateLimiter.timeWindow))).length
  · constructor
    · intro h
      simp [RateLimiter.canProceed, hfull] at h
    · intro _
      simp [RateLimiter.canProceed, hfull]
  · constructor
    · intro _
      simp [RateLimiter.canProceed, hfull]
    · intro h
      simp [RateLimiter.canProceed, hfull] at h

/-- Instance of the amended C8 statement: after ten grants at time 0, the
eleventh call at time 1 is denied, and the window bound holds on that
trace. -/
theorem C8_amended_witness :
    (RateLimiter.canProceed 1 (RateLimiter.runCalls tenZeros []).2).1 = false
    ∧ RateLimiter.windowCount 5 (RateLimiter.granted tenZeros) ≤ RateLimiter.maxCalls :=
  ⟨C8_amended_rolling_window_bound.2.2 tenZeros 1 [] (by decide) (by decide),
   C8_amended_rolling_window_bound.2.1 tenZeros (by decide) 5⟩

/-- C4 counterexample: under the eviction score the specification states
(`useCount - age/constant`), the fresh entry scores strictly higher than
every stale entry; yet cleanup of the over-capacity cache keeps a stale
entry and evicts the fresh one, because the implementation adds the
staleness term instead of subtracting it. -/
theorem C4_counterexample_staleness_added_not_subtracted :
    ResponseCache.specEvictionScore cacheNow staleEntry
        < ResponseCache.specEvictionScore cacheNow freshEntry
    ∧ staleKey 0 ∈ (ResponseCache.cleanupCache cacheNow bigCache).map Prod.fst
    ∧ "a" ∉ (ResponseCache.cleanupCache cacheNow bigCache).map Prod.fst := by
  refine ⟨?_, ?_, ?_⟩
  · simp only [ResponseCache.specEvictionScore, freshEntry, staleEntry, cacheNow]
    norm_num
  · rw [cleanup_bigCache, rebuildCache_keys]
    refine List.mem_map.mpr ⟨(staleKey 0, staleEntry), ?_, rfl⟩
    exact List.mem_map.mpr ⟨0, by simp, rfl⟩
  · rw [cleanup_bigCache, rebuildCache_keys]
    intro hmem
    obtain ⟨e, he, hfst⟩ := List.mem_map.mp hmem
    obtain ⟨i, _, hei⟩ := List.mem_map.mp he
    rw [← hei] at hfst
    have hdata := congrArg String.data hfst
    simp [staleKey] at hdata

/-- C4 amended: cleanup under capacity pressure first drops TTL-expired
entries (the result holds only unexpired entries), then keeps exactly the
first 1000 entries of the valid list stably sorted by descending
`entryScore = useCount + (now - lastUsed)/1e6`; every dropped valid entry
scores at or below every kept entry under that implemented score, whose
staleness term is added (a bonus), not subtracted as the spec says. -/
theorem C4_amended_cleanup_eviction_order (now : Int) (cache : ResponseCache.Cache)
    (h : ResponseCache.maxCacheSize
      < (cache.filter
          (fun e => decide (now - e.2.timestamp < ResponseCache.cacheExpiry))).length) :
    ResponseCache.cleanupCache now cache
      = ResponseCache.rebuildCache
          ((stableSort (ResponseCache.entryLe now)
            (cache.filter
              (fun e => decide (now - e.2.timestamp < ResponseCache.cacheExpiry)))).take
            ResponseCache.maxCacheSize)
    ∧ (∀ d ∈ (stableSort (ResponseCache.entryLe now)
          (cache.filter
            (fun e => decide (now - e.2.timestamp < ResponseCache.cacheExpiry)))).drop
          ResponseCache.maxCacheSize,
        ∀ k ∈ (stableSort (ResponseCache.entryLe now)
          (cache.filter
            (fun e => decide (now - e.2.timestamp < ResponseCache.cacheExpiry)))).take
          ResponseCache.maxCacheSize,
        ResponseCache.entryScore now d.2 ≤ ResponseCache.entryScore now k.2)
    ∧ (∀ e ∈ ResponseCache.cleanupCache now cache,
        now - e.2.timestamp < ResponseCache.cacheExpiry) := by
  have htot : ∀ a b, ResponseCache.entryLe now a b = true ∨ ResponseCache.entryLe now b a = true := by
    intro a b
    rcases le_total (ResponseCache.entryScore now b.2) (ResponseCache.entryScore now a.2) with h1 | h1
    · exact Or.inl (decide_eq_true h1)
    · exact Or.inr (decide_eq_true h1)
  have htrans : ∀ a b c, ResponseCache.entryLe now a b = true →
      ResponseCache.entryLe now b c = true → ResponseCache.entryLe now a c = true := by
    intro a b c hab hbc
    exact decide_eq_true (le_trans (of_decide_eq_true hbc) (of_decide_eq_true hab))
  have heq : ResponseCache.cleanupCache now cache
      = ResponseCache.rebuildCache
          ((stableSort (ResponseCache.entryLe now)
            (cache.filter
              (fun e => decide (now - e.2.timestamp < ResponseCache.cacheExpiry)))).take
            ResponseCache.maxCacheSize) := by
    simp only [ResponseCache.cleanupCache]
    rw [if_pos h]
  refine ⟨heq, ?_, ?_⟩
  · have hpair := stableSort_pairwise (ResponseCache.entryLe now) htot htrans
      (cache.filter (fun e => decide (now - e.2.timestamp < ResponseCache.cacheExpiry)))
    rw [← List.take_append_drop ResponseCache.maxCacheSize
      (stableSort (ResponseCache.entryLe now)
        (cache.filter
          (fun e => decide (now - e.2.timestamp < ResponseCache.cacheExpiry))))] at hpair
    have hrel := (List.pairwise_append.mp hpair).2.2
    intro d hd k hk
    exact of_decide_eq_true (hrel k hk d hd)
  · intro e he
    rw [heq] at he
    have h1 := rebuildCache_mem _ e he
    have h2 : e ∈ stableSort (ResponseCache.entryLe now)
        (cache.filter
          (fun e => decide (now - e.2.timestamp < ResponseCache.cacheExpiry))) :=
      List.Sublist.mem h1 (List.take_sublist _ _)
    have h3 : e ∈ cache.filter
        (fun e => decide (now - e.2.timestamp < ResponseCache.cacheExpiry)) :=
      (stableSort_perm _ _).mem_iff.mp h2
    have h4 := (List.mem_filter.mp h3).2
    exact of_decide_eq_true h4

set_option maxRecDepth 40000 in
/-- Instance of the amended C4 statement at the over-capacity cache. -/
theorem C4_amended_witness :
    ResponseCache.maxCacheSize
      < (bigCache.filter
          (fun e => decide (cacheNow - e.2.timestamp < ResponseCache.cacheExpiry))).length
    ∧ (∀ e ∈ ResponseCache.cleanupCache cacheNow bigCache,
        cacheNow - e.2.timestamp < ResponseCache.cacheExpiry) :=
  ⟨by decide, (C4_amended_cleanup_eviction_order cacheNow bigCache (by decide)).2.2⟩

/-- C2 counterexample: executing the stored pattern `wfP` (usageCount 2,
successRate 1) through the `WorkflowSaver` path with its one AI step
skipped updates `successRate` to `(1 + 0)/2 = 1/2`, not the
incremental-average value `(1*2 + 0)/3 = 2/3` the claim requires for every
execution path. -/
theorem C2_counterexample_saver_uses_halving :
    WorkflowSaver.executeWorkflow [wfP] "p1" false "t2" = some ([wfPUpdated], 0)
    ∧ wfPUpdated.usageCount = wfP.usageCount + 1
    ∧ wfPUpdated.successRate = (wfP.successRate + 0) / 2
    ∧ (wfP.successRate + 0) / 2
        ≠ (wfP.successRate * (wfP.usageCount : ℚ) + 0) / ((wfP.usageCount : ℚ) + 1) := by
  refine ⟨rfl, rfl, rfl, ?_⟩
  show ((1 : ℚ) + 0) / 2 ≠ ((1 : ℚ) * ((2 : ℕ) : ℚ) + 0) / (((2 : ℕ) : ℚ) + 1)
  norm_num

/-- C2 amended: the `WorkflowExecutor` path updates the first matching
workflow exactly by the incremental-average formula
`(rate * oldCount + outcome) / (oldCount + 1)` with `usageCount + 1`; the
`WorkflowSaver` path instead sets `successRate = (rate + outcome)/2` (and
refreshes `lastUsed`); under either update every stored `successRate` in
[0,1] stays in [0,1], hence also after any sequence of executions. -/
theorem C2_amended_stats_formulas :
    (∀ (ws1 ws2 : List Workflow.SavedWorkflow) (w : Workflow.SavedWorkflow)
        (workflowId : String) (b : Bool),
      (∀ v ∈ ws1, v.id ≠ workflowId) → w.id = workflowId →
      Workflow.updateWorkflowStats (ws1 ++ w :: ws2) workflowId b
        = ws1 ++ { w with
            usageCount := w.usageCount + 1
            successRate := (w.successRate * (w.usageCount : ℚ) + (if b then 1 else 0))
              / ((w.usageCount : ℚ) + 1) } :: ws2)
    ∧ (∀ (ws1 ws2 : List WorkflowSaver.WorkflowPattern) (w : WorkflowSaver.WorkflowPattern)
        (workflowId nowStr : String) (b : Bool),
      (∀ v ∈ ws1, v.id ≠ workflowId) → w.id = workflowId →
      WorkflowSaver.updateWorkflowStats (ws1 ++ w :: ws2) workflowId b nowStr
        = ws1 ++ { w with
            usageCount := w.usageCount + 1
            lastUsed := nowStr
            successRate := (w.successRate + (if b then 1 else 0)) / 2 } :: ws2)
    ∧ (∀ (ws : List Workflow.SavedWorkflow) (workflowId : String) (b : Bool),
      (∀ w ∈ ws, 0 ≤ w.successRate ∧ w.successRate ≤ 1) →
      ∀ v ∈ Workflow.updateWorkflowStats ws workflowId b,
        0 ≤ v.successRate ∧ v.successRate ≤ 1)
    ∧ (∀ (ws : List WorkflowSaver.WorkflowPattern) (workflowId nowStr : String) (b : Bool),
      (∀ w ∈ ws, 0 ≤ w.successRate ∧ w.successRate ≤ 1) →
      ∀ v ∈ WorkflowSaver.updateWorkflowStats ws workflowId b nowStr,
        0 ≤ v.successRate ∧ v.successRate ≤ 1) := by
  have hb01 : ∀ b : Bool, (0 : ℚ) ≤ (if b then 1 else 0) ∧ ((if b then 1 else 0) : ℚ) ≤ 1 := by
    intro b
    cases b <;> norm_num
  refine ⟨?_, ?_, ?_, ?_⟩
  · intro ws1 ws2 w wid b h1 h2
    induction ws1 with
    | nil =>
      simp only [List.nil_append, Workflow.updateWorkflowStats]
      rw [if_pos (by simp [h2])]
      have hq1 : ((w.usageCount + 1 : ℕ) : ℚ) - 1 = (w.usageCount : ℚ) := by
        push_cast
        ring
      have hq2 : ((w.usageCount + 1 : ℕ) : ℚ) = (w.usageCount : ℚ) + 1 := by
        push_cast
        ring
      rw [hq1, hq2]
    | cons v rest ih =>
      have hv : v.id ≠ wid := h1 v (List.mem_cons_self v rest)
      simp only [List.cons_append, Workflow.updateWorkflowStats]
      rw [if_neg (by simp [hv])]
      exact congrArg (fun l => v :: l) (ih (fun u hu => h1 u (List.mem_cons_of_mem v hu)))
  · intro ws1 ws2 w wid nowStr b h1 h2
    induction ws1 with
    | nil =>
      simp only [List.nil_append, WorkflowSaver.updateWorkflowStats]
      rw [if_pos (by simp [h2])]
    | cons v rest ih =>
      have hv : v.id ≠ wid := h1 v (List.mem_cons_self v rest)
      simp only [List.cons_append, WorkflowSaver.updateWorkflowStats]
      rw [if_neg (by simp [hv])]
      exact congrArg (fun l => v :: l) (ih (fun u hu => h1 u (List.mem_cons_of_mem v hu)))
  · intro ws wid b hws
    induction ws with
    | nil =>
      intro v hv
      simp [Workflow.updateWorkflowStats] at hv
    | cons w rest ih =>
      intro v hv
      simp only [Workflow.updateWorkflowStats] at hv
      by_cases hw : (w.id == wid) = true
      · rw [if_pos hw] at hv
        rcases List.mem_cons.mp hv with h1 | h1
        · subst h1
          obtain ⟨hr0, hr1⟩ := hws w (List.mem_cons_self w rest)
          obtain ⟨hb0, hb1⟩ := hb01 b
          have hq1 : ((w.usageCount + 1 : ℕ) : ℚ) - 1 = (w.usageCount : ℚ) := by
            push_cast
            ring
          have hpos : (0 : ℚ) < ((w.usageCount + 1 : ℕ) : ℚ) := by positivity
          have hcast : ((w.usageCount + 1 : ℕ) : ℚ) = (w.usageCount : ℚ) + 1 := by
            push_cast
            ring
          have hn0 : (0 : ℚ) ≤ (w.usageCount : ℚ) := Nat.cast_nonneg _
          constructor
          · show (0 : ℚ) ≤ (w.successRate * (((w.usageCount + 1 : ℕ) : ℚ) - 1)
                + (if b then 1 else 0)) / ((w.usageCount + 1 : ℕ) : ℚ)
            rw [hq1]
            apply div_nonneg _ (le_of_lt hpos)
            have := mul_nonneg hr0 hn0
            linarith
          · show (w.successRate * (((w.usageCount + 1 : ℕ) : ℚ) - 1)
                + (if b then 1 else 0)) / ((w.usageCount + 1 : ℕ) : ℚ) ≤ 1
            rw [div_le_one hpos, hq1, hcast]
            nlinarith
        · exact hws v (List.mem_cons_of_mem w h1)
      · rw [if_neg hw] at hv
        rcases List.mem_cons.mp hv with h1 | h1
        · subst h1
          exact hws v (List.mem_cons_self v rest)
        · exact ih (fun u hu => hws u (List.mem_cons_of_mem w hu)) v h1
  · intro ws wid nowStr b hws
    induction ws with
    | nil =>
      intro v hv
      simp [WorkflowSaver.updateWorkflowStats] at hv
    | cons w rest ih =>
      intro v hv
      simp only [WorkflowSaver.updateWorkflowStats] at hv
      by_cases hw : (w.id == wid) = true
      · rw [if_pos hw] at hv
        rcases List.mem_cons.mp hv with h1 | h1
        · subst h1
          obtain ⟨hr0, hr1⟩ := hws w (List.mem_cons_self w rest)
          obtain ⟨hb0, hb1⟩ := hb01 b
          constructor
          · show (0 : ℚ) ≤ (w.successRate + (if b then 1 else 0)) / 2
            apply div_nonneg _ (by norm_num)
            linarith
          · show (w.successRate + (if b then 1 else 0)) / 2 ≤ 1
            rw [div_le_one (by norm_num)]
            linarith
        · exact hws v (List.mem_cons_of_mem w h1)
      · rw [if_neg hw] at hv
        rcases List.mem_cons.mp hv with h1 | h1
        · subst h1
          exact hws v (List.mem_cons_self v rest)
        · exact ih (fun u hu => hws u (List.mem_cons_of_mem w hu)) v h1

/-- Instance of the amended C2 statement: one executor-path update of `wf4`
with a successful outcome, and range preservation on that store. -/
theorem C2_amended_witness :
    Workflow.updateWorkflowStats ([] ++ wf4 :: []) "wf4" true
      = [] ++ { wf4 with
          usageCount := wf4.usageCount + 1
          successRate := (wf4.successRate * (wf4.usageCount : ℚ) + (if true then 1 else 0))
            / ((wf4.usageCount : ℚ) + 1) } :: []
    ∧ (∀ v ∈ Workflow.updateWorkflowStats [wf4] "wf4" true,
        0 ≤ v.successRate ∧ v.successRate ≤ 1) :=
  ⟨C2_amended_stats_formulas.1 [] [] wf4 "wf4" true (by simp) rfl,
   C2_amended_stats_formulas.2.2.1 [wf4] "wf4" true (by simp [wf4])⟩
